import Mathlib

/-!
Verification of the Patreon batch-download supervisor and post-processing
pipeline (scripts/process_creators.py).

The Python source is shallowly embedded as executable Lean definitions:

* text is modelled as `String` / `List Char`; the ASCII-only helpers below
  mirror the Python string operations used by the script (`in`, `lower`,
  `strip`, `split`, `startswith`) for the ASCII data the script handles;
* the per-line error test and the log-line dispatch chain of
  `download_creator` become `isErrorLine` and `classifyLine`;
* the end-of-job outcome decision (return code plus accumulated error
  lines) becomes `classify`;
* the non-blocking read loop's chunk/buffer handling and the final drain
  become `streamStep` / `runLoop` / `drainErrors`;
* `clean_up_files` (regex grouping, role classification, moves and
  deletions) becomes `matchFilename`, `groupFiles`, `classifyRoles`,
  `processGroup` and `cleanUpOps`; filesystem paths are the file names
  relative to the creator directory;
* `add_metadata_to_video`'s effects are modelled over a small environment
  recording which of its fallible steps succeed;
* the one-update-per-second progress throttle becomes `throttledPctLog`
  over rational timestamps.
-/

/-- True when the pattern list is a prefix of the second list
(Python str.startswith, over characters). -/
def startsWithC : List Char → List Char → Bool
  | [], _ => true
  | _ :: _, [] => false
  | p :: ps, c :: cs => p = c && startsWithC ps cs

/-- True when the pattern occurs as a contiguous substring of the second
list (the Python `in` operator on strings). -/
def hasSubC (pat : List Char) : List Char → Bool
  | [] => pat.isEmpty
  | c :: cs => startsWithC pat (c :: cs) || hasSubC pat cs

/-- ASCII lower-casing of a string, as Python str.lower on ASCII data. -/
def lowerStr (s : String) : String := String.mk (s.data.map Char.toLower)

/-- True when pat occurs as a substring of s (Python `pat in s`). -/
def hasSub (pat s : String) : Bool := hasSubC pat.data s.data

/-- Embeds the error-line test of process_creators.py line 406 (and the
identical test at line 454): `'ERROR:' in line or 'error:' in line.lower()
or 'warning:' in line.lower()`. -/
def isErrorLine (line : String) : Bool :=
  hasSub "ERROR:" line || hasSub "error:" (lowerStr line) ||
    hasSub "warning:" (lowerStr line)

/-- Semantic categories of a captured output line, following the spec's
ClassifiedEvent data model. -/
inductive Category where
  | errorOrWarning
  | progress
  | info
  | debug
  deriving DecidableEq, Repr

/-- Embeds the if/elif dispatch chain over a stripped output line in
`download_creator` (process_creators.py lines 406-433): error lines first,
then lines starting with the `[download]` progress marker (whose
percentage/importance sub-handling is modelled separately by
`throttledPctLog`), then the info-channel markers, and everything else at
debug verbosity. -/
def classifyLine (line : String) : Category :=
  if isErrorLine line then .errorOrWarning
  else if startsWithC "[download]".data line.data then .progress
  else if hasSub "[info]" line then .info
  else if hasSub "has already been downloaded" line then .info
  else if hasSub "Downloading page" line then .info
  else .debug

/-- Job outcome, following the spec's Outcome data model. The code itself
returns a Bool from `download_creator`; `classify` below records which of
the three source branches (lines 472, 503, 508) fired, and
`downloadResult` maps that back to the returned Bool. -/
inductive Outcome where
  | Success
  | DegradedBenign (reason_count : Nat)
  | Failed
  deriving DecidableEq, Repr

/-- The benign-error test of process_creators.py line 468:
`"No supported media found in this post" in line`. -/
def isBenign (line : String) : Bool :=
  hasSub "No supported media found in this post" line

/-- Embeds the end-of-job decision of `download_creator`
(process_creators.py lines 467-510): partition the captured error lines
into benign and critical, then
`if return_code != 0 and critical_errors` -> Failed (returns False),
`elif media_not_found_errors and return_code != 0` -> DegradedBenign
(returns True, logging the benign count), else Success (returns True). -/
def classify (return_code : Int) (error_lines : List String) : Outcome :=
  let media_not_found_errors := error_lines.filter (fun l => isBenign l)
  let critical_errors := error_lines.filter (fun l => !(isBenign l))
  if return_code ≠ 0 ∧ critical_errors ≠ [] then
    .Failed
  else if media_not_found_errors ≠ [] ∧ return_code ≠ 0 then
    .DegradedBenign media_not_found_errors.length
  else
    .Success

/-- The Bool actually returned by `download_creator` for a given outcome:
False exactly on the Failed branch. -/
def downloadResult (return_code : Int) (error_lines : List String) : Bool :=
  match classify return_code error_lines with
  | .Failed => false
  | _ => true

/-- C1: outcome classification is deterministic (it is a function) and
satisfies: exit code 0 yields Success; a nonzero exit code where every
error line is benign and at least one exists yields DegradedBenign with
the benign count; a nonzero exit code with at least one critical line
yields Failed. -/
theorem C1_outcome_classification (rc : Int) (lines : List String) :
    (rc = 0 → classify rc lines = .Success) ∧
    (rc ≠ 0 → (∀ l ∈ lines, isBenign l = true) → lines ≠ [] →
      classify rc lines = .DegradedBenign lines.length) ∧
    (rc ≠ 0 → (∃ l ∈ lines, isBenign l = false) →
      classify rc lines = .Failed) := by
  refine ⟨?_, ?_, ?_⟩
  · intro h0
    simp [classify, h0]
  · intro hrc hall hne
    have hcrit : lines.filter (fun l => !(isBenign l)) = [] := by
      simp only [List.filter_eq_nil_iff]
      intro l hl
      simp [hall l hl]
    have hben : lines.filter (fun l => isBenign l) = lines := by
      rw [List.filter_eq_self]
      intro l hl
      simp [hall l hl]
    simp [classify, hcrit, hben, hne, hrc]
  · intro hrc hex
    rcases hex with ⟨l, hl, hbl⟩
    have hcrit : lines.filter (fun l => !(isBenign l)) ≠ [] := by
      simp only [ne_eq, List.filter_eq_nil_iff]
      intro hall
      exact absurd (hall l hl) (by simp [hbl])
    simp [classify, hcrit, hrc]

/-- Witness for C1 at concrete inputs: exit 0 with a critical line is
Success, exit 1 with one benign line is DegradedBenign 1, exit 1 with a
critical line is Failed. -/
theorem C1_outcome_classification_witness :
    classify 0 ["ERROR: boom"] = .Success ∧
    classify 1 ["ERROR: No supported media found in this post"] =
      .DegradedBenign 1 ∧
    classify 1 ["ERROR: HTTP Error 401"] = .Failed := by
  refine ⟨(C1_outcome_classification 0 ["ERROR: boom"]).1 rfl, ?_, ?_⟩
  · exact (C1_outcome_classification 1
      ["ERROR: No supported media found in this post"]).2.1
      (by decide) (by decide) (by decide)
  · exact (C1_outcome_classification 1 ["ERROR: HTTP Error 401"]).2.2
      (by decide) ⟨"ERROR: HTTP Error 401", by decide, by decide⟩

/-- C6: line classification is total and deterministic (each line gets
exactly one category), and a line matching the error-or-warning test is
classified ErrorOrWarning and never reclassified by a later rule; no
other line is classified ErrorOrWarning. -/
theorem C6_classifier_total (line : String) :
    (∃! c, classifyLine line = c) ∧
    (classifyLine line = .errorOrWarning ↔ isErrorLine line = true) := by
  constructor
  · exact ⟨classifyLine line, rfl, fun c h => h.symm⟩
  · constructor
    · intro h
      by_contra hne
      have hne' : isErrorLine line = false := by
        cases he : isErrorLine line
        · rfl
        · exact absurd he hne
      revert h
      unfold classifyLine
      rw [hne']
      split_ifs <;> simp_all
    · intro h
      simp [classifyLine, h]

/-- Witness for C6 at concrete lines: an error line is classified
ErrorOrWarning, a progress line is not. -/
theorem C6_classifier_total_witness :
    classifyLine "ERROR: unable to download" = .errorOrWarning ∧
    isErrorLine "[download]  12.3% of 1MiB" = false := by
  constructor
  · exact (C6_classifier_total "ERROR: unable to download").2.mpr (by decide)
  · decide

/-- Characters allowed inside the bracketed id of the grouping regex of
`clean_up_files` (process_creators.py line 147): the class [a-zA-Z0-9_-]. -/
def isIdChar (c : Char) : Bool := c.isAlphanum || c = '_' || c = '-'

/-- Matches the tail of the grouping regex against the characters that
follow the lazily-matched group 1: whitespace*, then a bracketed run of
id characters, then a dot followed by alphanumeric characters reaching
the end of the name. Returns (group 2, group 3): the id part including
the leading whitespace and brackets, and the extension including its dot.
The regex engine has no real freedom here: the id characters, extension
characters and the end anchor make each greedy sub-match forced. -/
def matchIdTail (cs : List Char) : Option (List Char × List Char) :=
  let ws := cs.takeWhile Char.isWhitespace
  let rest := cs.drop ws.length
  match rest with
  | '[' :: r1 =>
    let ids := r1.takeWhile isIdChar
    let r2 := r1.drop ids.length
    if ids = [] then none
    else
      match r2 with
      | ']' :: '.' :: r3 =>
        let ext := r3.takeWhile Char.isAlphanum
        let r4 := r3.drop ext.length
        if ext ≠ [] ∧ r4 = [] then
          some (ws ++ '[' :: (ids ++ [']']), '.' :: ext)
        else none
      | _ => none
  | _ => none

/-- Lazy matching of group 1 of the grouping regex: the shortest nonempty
prefix whose remainder matches the id-suffix tail. Returns
(group 1, group 2, group 3) for the first split that succeeds, scanning
split points left to right exactly as the lazy quantifier does. -/
def findSplit : List Char → Option (List Char × List Char × List Char)
  | [] => none
  | c :: rest =>
    match matchIdTail rest with
    | some (idp, ext) => some ([c], idp, ext)
    | none =>
      match findSplit rest with
      | some (g1, idp, ext) => some (c :: g1, idp, ext)
      | none => none

/-- Embeds the anchored grouping regex of `clean_up_files`
(process_creators.py line 147) applied to a base file name:
re.match of (.+?)(\s*\[[a-zA-Z0-9_-]+\])(\.[a-zA-Z0-9]+)$ returning
(name without id, id part, extension) when the name matches. -/
def matchFilename (s : String) : Option (String × String × String) :=
  match findSplit s.data with
  | some (g1, idp, ext) => some (String.mk g1, String.mk idp, String.mk ext)
  | none => none

/-- One value of the file_groups dict of `clean_up_files`
(process_creators.py line 156): the id part recorded when the group was
created and the (file name, extension) pairs in insertion order. -/
structure IdGroup where
  id : String
  files : List (String × String)
  deriving DecidableEq, Repr

/-- Embeds one dict update of `clean_up_files` (lines 155-158): create the
group on first sight of its key, then append the (file, extension) pair;
insertion order of keys is preserved as in a Python dict. -/
def addFile (gs : List (String × IdGroup)) (key idp f ext : String) :
    List (String × IdGroup) :=
  match gs with
  | [] => [(key, { id := idp, files := [(f, ext)] })]
  | (k, g) :: rest =>
    if k = key then (k, { g with files := g.files ++ [(f, ext)] }) :: rest
    else (k, g) :: addFile rest key idp f ext

/-- Embeds the grouping scan of `clean_up_files` (lines 142-158) over the
names of the regular files in the creator directory: names matching the
grouping regex are grouped under their de-suffixed base name, the rest
are ignored. -/
def groupFiles (files : List String) : List (String × IdGroup) :=
  files.foldl
    (fun gs f =>
      match matchFilename f with
      | some (name, idp, ext) => addFile gs name idp f ext
      | none => gs)
    []

/-- Role assignment produced by the per-group loop of `clean_up_files`
(lines 161-179). -/
structure Roles where
  video : Option String
  infoJson : Option String
  description : Option String
  thumbnail : Option String
  others : List String
  deriving DecidableEq, Repr

/-- The media extensions of process_creators.py line 170. -/
def videoExts : List String := [".mp4", ".mkv", ".webm", ".mov", ".avi"]

/-- The thumbnail extensions of process_creators.py line 176. -/
def thumbnailExts : List String := [".jpg", ".jpeg", ".png", ".webp"]

/-- Embeds one step of the role loop (lines 169-179): the lower-cased
extension selects the role, later files of the same role overwrite
earlier ones, unrecognized files accumulate in order. -/
def roleStep (r : Roles) (fe : String × String) : Roles :=
  if lowerStr fe.2 ∈ videoExts then { r with video := some fe.1 }
  else if lowerStr fe.2 = ".info.json" then { r with infoJson := some fe.1 }
  else if lowerStr fe.2 = ".description" then { r with description := some fe.1 }
  else if lowerStr fe.2 ∈ thumbnailExts then { r with thumbnail := some fe.1 }
  else { r with others := r.others ++ [fe.1] }

/-- Embeds the role loop of `clean_up_files` over one group's files. -/
def classifyRoles (files : List (String × String)) : Roles :=
  files.foldl roleStep ⟨none, none, none, none, []⟩

/-- Collapses every run of whitespace into a single space, as
re.sub of \s+ with a space (process_creators.py line 112). -/
def collapseWsAux : Bool → List Char → List Char
  | _, [] => []
  | prevWs, c :: cs =>
    if c.isWhitespace then
      (if prevWs then [] else [' ']) ++ collapseWsAux true cs
    else c :: collapseWsAux false cs

/-- Whitespace-run collapsing starting outside a run. -/
def collapseWs (s : List Char) : List Char := collapseWsAux false s

/-- Strips whitespace from both ends, as Python str.strip. -/
def pyStrip (s : List Char) : List Char :=
  ((s.dropWhile Char.isWhitespace).reverse.dropWhile Char.isWhitespace).reverse

/-- Splits on whitespace runs dropping empty pieces, as Python
str.split with no argument; the first argument accumulates the current
word reversed. -/
def wordsAux : List Char → List Char → List (List Char)
  | acc, [] => if acc = [] then [] else [acc.reverse]
  | acc, c :: cs =>
    if c.isWhitespace then
      (if acc = [] then [] else [acc.reverse]) ++ wordsAux [] cs
    else wordsAux (c :: acc) cs

/-- Python str.capitalize: first character upper-cased, the rest
lower-cased (ASCII case). -/
def pyCapitalize : List Char → List Char
  | [] => []
  | c :: cs => c.toUpper :: cs.map Char.toLower

/-- Joins word lists with single spaces, as the str.join of
process_creators.py line 118. -/
def joinSpace : List (List Char) → List Char
  | [] => []
  | [w] => w
  | w :: ws => w ++ ' ' :: joinSpace ws

/-- ASCII word characters of the regex class \w used at line 109 (the
input at that point no longer contains underscores, which were replaced
at line 106, but the class itself admits them). -/
def isWordCharAscii (c : Char) : Bool := c.isAlphanum || c = '_'

/-- Embeds `sanitize_folder_name` (process_creators.py lines 103-127):
underscores to spaces, non word/whitespace/hyphen characters to spaces,
whitespace runs collapsed, ends stripped, each word capitalized and
joined by single spaces, and names longer than 80 characters truncated
to 77 plus an ellipsis. -/
def sanitize_folder_name (name : String) : String :=
  let s1 := name.data.map (fun c => if c = '_' then ' ' else c)
  let s2 := s1.map
    (fun c => if isWordCharAscii c || c.isWhitespace || c = '-' then c else ' ')
  let s3 := collapseWs s2
  let s4 := pyStrip s3
  let s5 := joinSpace ((wordsAux [] s4).map pyCapitalize)
  let s6 := if s5.length > 80 then s5.take 77 ++ ['.', '.', '.'] else s5
  String.mk s6

/-- Embeds os.path.splitext applied to a file name (no directory part):
the extension from the last dot, where the leading dots of the name never
begin an extension. -/
def splitextExt (s : String) : String :=
  let cs := s.data
  let lead := cs.takeWhile (fun c => c = '.')
  let rest := cs.drop lead.length
  let revExt := rest.reverse.takeWhile (fun c => c ≠ '.')
  if revExt.length = rest.length then String.mk []
  else String.mk ('.' :: revExt.reverse)

/-- Filesystem effects of `clean_up_files` on one group, recorded as
data: file moves as (source name, destination path), deletions, created
folders, and the video files on which metadata injection was attempted
(add_metadata_to_video invoked). Paths are relative to the creator
directory. -/
structure GroupOps where
  moves : List (String × String)
  deletions : List String
  folders : List String
  metadataInjected : List String
  deriving DecidableEq, Repr

/-- Embeds the per-group processing of `clean_up_files` (lines 181-213):
nothing happens without a video file; with one, a sanitized folder is
created, metadata injection is attempted when an info JSON is present,
the video (and thumbnail, if any) are moved in under canonical names,
and the info JSON, description and unrecognized files are deleted. -/
def processGroup (key : String) (g : IdGroup) : GroupOps :=
  let roles := classifyRoles g.files
  match roles.video with
  | none => ⟨[], [], [], []⟩
  | some v =>
    let cleanTitle := sanitize_folder_name key
    let videoMove := (v, cleanTitle ++ "/video" ++ splitextExt v)
    let thumbMoves :=
      match roles.thumbnail with
      | some t => [(t, cleanTitle ++ "/thumbnail" ++ splitextExt t)]
      | none => []
    let dels :=
      (match roles.infoJson with | some i => [i] | none => []) ++
      (match roles.description with | some d => [d] | none => []) ++
      roles.others
    { moves := videoMove :: thumbMoves,
      deletions := dels,
      folders := [cleanTitle],
      metadataInjected :=
        match roles.infoJson with | some _ => [v] | none => [] }

/-- Embeds the whole `clean_up_files` pass over the creator directory's
top-level file names: group, then process each group in order; the
recorded effects are the concatenation of the per-group effects. -/
def cleanUpOps (files : List String) : GroupOps :=
  let gs := groupFiles files
  ⟨gs.flatMap (fun kg => (processGroup kg.1 kg.2).moves),
   gs.flatMap (fun kg => (processGroup kg.1 kg.2).deletions),
   gs.flatMap (fun kg => (processGroup kg.1 kg.2).folders),
   gs.flatMap (fun kg => (processGroup kg.1 kg.2).metadataInjected)⟩

/-- Top-level file names still present after the pass: the input names
that were neither moved into a folder nor deleted. -/
def finalTopLevel (files : List String) : List String :=
  let ops := cleanUpOps files
  files.filter
    (fun f => !((ops.moves.map Prod.fst).contains f) && !(ops.deletions.contains f))

/-- C2 (code behavior at the claimed input): the grouping regex never
matches the info JSON name, so the group under "Ep1" holds only the video
and the description, metadata injection is never invoked, the video is
moved to Ep1/video.mp4, the description is deleted, and the info JSON is
left behind at top level. -/
theorem C2_code_behavior :
    matchFilename "Ep1 [abc123].info.json" = none ∧
    groupFiles
        ["Ep1 [abc123].mp4", "Ep1 [abc123].info.json",
         "Ep1 [abc123].description"] =
      [("Ep1",
        { id := " [abc123]",
          files := [("Ep1 [abc123].mp4", ".mp4"),
                    ("Ep1 [abc123].description", ".description")] })] ∧
    (cleanUpOps
        ["Ep1 [abc123].mp4", "Ep1 [abc123].info.json",
         "Ep1 [abc123].description"]).metadataInjected = [] ∧
    (cleanUpOps
        ["Ep1 [abc123].mp4", "Ep1 [abc123].info.json",
         "Ep1 [abc123].description"]).moves =
      [("Ep1 [abc123].mp4", "Ep1/video.mp4")] ∧
    finalTopLevel
        ["Ep1 [abc123].mp4", "Ep1 [abc123].info.json",
         "Ep1 [abc123].description"] =
      ["Ep1 [abc123].info.json"] := by
  decide

/-- Helper: a grouping scan in which no name matches the regex leaves the
accumulated groups unchanged. -/
theorem groupScan_const (files : List String) (gs : List (String × IdGroup))
    (h : ∀ f ∈ files, matchFilename f = none) :
    files.foldl
      (fun gs f =>
        match matchFilename f with
        | some (name, idp, ext) => addFile gs name idp f ext
        | none => gs)
      gs = gs := by
  induction files generalizing gs with
  | nil => rfl
  | cons f fs ih =>
    simp only [List.foldl_cons, h f (List.mem_cons_self f fs)]
    exact ih gs (fun f hf => h f (List.mem_cons_of_mem _ hf))

/-- C8: running the pipeline on a directory in which no top-level file
name matches the bracketed-id pattern performs zero moves and zero
deletions, so a second run on already-reorganized output is a no-op. -/
theorem C8_pipeline_idempotent (files : List String)
    (h : ∀ f ∈ files, matchFilename f = none) :
    (cleanUpOps files).moves = [] ∧ (cleanUpOps files).deletions = [] := by
  have hg : groupFiles files = [] := groupScan_const files [] h
  simp [cleanUpOps, hg]

/-- Witness for C8: the canonical names produced by a first pipeline run
match nothing, and the pass over them moves and deletes nothing. -/
theorem C8_pipeline_idempotent_witness :
    (∀ f ∈ ["video.mp4", "thumbnail.jpg"], matchFilename f = none) ∧
    (cleanUpOps ["video.mp4", "thumbnail.jpg"]).moves = [] ∧
    (cleanUpOps ["video.mp4", "thumbnail.jpg"]).deletions = [] := by
  refine ⟨by decide, ?_⟩
  exact C8_pipeline_idempotent ["video.mp4", "thumbnail.jpg"] (by decide)

/-- Helper: the keys after a dict update are the old keys, extended by
the new key exactly when it was absent. -/
theorem addFile_keys (gs : List (String × IdGroup)) (key idp f ext : String) :
    (addFile gs key idp f ext).map Prod.fst =
      if key ∈ gs.map Prod.fst then gs.map Prod.fst
      else gs.map Prod.fst ++ [key] := by
  induction gs with
  | nil => simp [addFile]
  | cons kg rest ih =>
    obtain ⟨k, g⟩ := kg
    by_cases hk : k = key
    · subst hk
      simp [addFile]
    · simp only [addFile, if_neg hk, List.map_cons, ih, List.mem_cons]
      have : ¬ key = k := fun h => hk h.symm
      by_cases hmem : key ∈ rest.map Prod.fst
      · simp [hmem, this]
      · simp [hmem, this]

/-- Invariant of the grouping scan: keys are distinct, and every file
recorded in a group matched the regex with that group's key as its
de-suffixed base name and its recorded extension as group 3. -/
def goodGroups (gs : List (String × IdGroup)) : Prop :=
  (gs.map Prod.fst).Nodup ∧
  ∀ kg ∈ gs, ∀ pe ∈ kg.2.files,
    ∃ idp, matchFilename pe.1 = some (kg.1, idp, pe.2)

/-- Helper: a dict update with a freshly matched file preserves the
grouping invariant. -/
theorem addFile_good (gs : List (String × IdGroup)) (key idp f ext : String)
    (hgood : goodGroups gs) (hf : matchFilename f = some (key, idp, ext)) :
    goodGroups (addFile gs key idp f ext) := by
  induction gs with
  | nil =>
    refine ⟨by simp [addFile], ?_⟩
    intro kg hkg pe hpe
    simp only [addFile, List.mem_singleton] at hkg
    subst hkg
    simp only [List.mem_singleton] at hpe
    subst hpe
    exact ⟨idp, hf⟩
  | cons kg0 rest ih =>
    obtain ⟨k, g⟩ := kg0
    obtain ⟨hnd, hmem⟩ := hgood
    simp only [List.map_cons, List.nodup_cons] at hnd
    by_cases hk : k = key
    · subst hk
      refine ⟨by simpa [addFile] using hnd, ?_⟩
      intro kg hkg pe hpe
      simp only [addFile, eq_self_iff_true, if_true, List.mem_cons] at hkg
      rcases hkg with hkg | hkg
      · subst hkg
        simp only [List.mem_append, List.mem_singleton] at hpe
        rcases hpe with hpe | hpe
        · exact hmem (k, g) (List.mem_cons_self _ _) pe hpe
        · subst hpe
          exact ⟨idp, hf⟩
      · exact hmem kg (List.mem_cons_of_mem _ hkg) pe hpe
    · have hrest : goodGroups rest :=
        ⟨hnd.2, fun kg hkg => hmem kg (List.mem_cons_of_mem _ hkg)⟩
      have hih := ih hrest
      refine ⟨?_, ?_⟩
      · simp only [addFile, if_neg hk, List.map_cons, List.nodup_cons]
        refine ⟨?_, hih.1⟩
        rw [addFile_keys]
        by_cases hmem2 : key ∈ rest.map Prod.fst
        · rw [if_pos hmem2]
          exact hnd.1
        · rw [if_neg hmem2]
          simp only [List.mem_append, List.mem_singleton]
          rintro (hin | hin)
          · exact hnd.1 hin
          · exact hk hin
      · intro kg hkg pe hpe
        simp only [addFile, if_neg hk, List.mem_cons] at hkg
        rcases hkg with hkg | hkg
        · subst hkg
          exact hmem (k, g) (List.mem_cons_self _ _) pe hpe
        · exact hih.2 kg hkg pe hpe

/-- Helper: the grouping scan establishes the grouping invariant. -/
theorem groupScan_good (files : List String) (gs : List (String × IdGroup))
    (hgood : goodGroups gs) :
    goodGroups
      (files.foldl
        (fun gs f =>
          match matchFilename f with
          | some (name, idp, ext) => addFile gs name idp f ext
          | none => gs)
        gs) := by
  induction files generalizing gs with
  | nil => exact hgood
  | cons f fs ih =>
    simp only [List.foldl_cons]
    cases hm : matchFilename f with
    | none => exact ih gs hgood
    | some nie =>
      obtain ⟨name, idp, ext⟩ := nie
      exact ih _ (addFile_good gs name idp f ext hgood hm)

/-- The groups built by `clean_up_files` satisfy the grouping invariant. -/
theorem groupFiles_good (files : List String) : goodGroups (groupFiles files) :=
  groupScan_good files [] ⟨List.nodup_nil, by simp⟩

/-- Helper: a video role produced by the role loop names a file of the
group (or was already set in the initial accumulator). -/
theorem roles_video_mem (fs : List (String × String)) (r : Roles) (v : String)
    (h : (fs.foldl roleStep r).video = some v) :
    (∃ e, (v, e) ∈ fs) ∨ r.video = some v := by
  induction fs generalizing r with
  | nil => exact Or.inr h
  | cons fe fs ih =>
    simp only [List.foldl_cons] at h
    rcases ih (roleStep r fe) h with h1 | h1
    · rcases h1 with ⟨e, he⟩
      exact Or.inl ⟨e, List.mem_cons_of_mem _ he⟩
    · unfold roleStep at h1
      split_ifs at h1
      · have hv : fe.1 = v := Option.some.inj h1
        exact Or.inl ⟨fe.2, by rw [← hv]; exact List.mem_cons_self _ _⟩
      · exact Or.inr h1
      · exact Or.inr h1
      · exact Or.inr h1
      · exact Or.inr h1

/-- Helper: a thumbnail role produced by the role loop names a file of
the group (or was already set in the initial accumulator). -/
theorem roles_thumb_mem (fs : List (String × String)) (r : Roles) (t : String)
    (h : (fs.foldl roleStep r).thumbnail = some t) :
    (∃ e, (t, e) ∈ fs) ∨ r.thumbnail = some t := by
  induction fs generalizing r with
  | nil => exact Or.inr h
  | cons fe fs ih =>
    simp only [List.foldl_cons] at h
    rcases ih (roleStep r fe) h with h1 | h1
    · rcases h1 with ⟨e, he⟩
      exact Or.inl ⟨e, List.mem_cons_of_mem _ he⟩
    · unfold roleStep at h1
      split_ifs at h1
      · exact Or.inr h1
      · exact Or.inr h1
      · exact Or.inr h1
      · have hv : fe.1 = t := Option.some.inj h1
        exact Or.inl ⟨fe.2, by rw [← hv]; exact List.mem_cons_self _ _⟩
      · exact Or.inr h1

/-- Helper: an info JSON role produced by the role loop names a file of
the group (or was already set in the initial accumulator). -/
theorem roles_info_mem (fs : List (String × String)) (r : Roles) (x : String)
    (h : (fs.foldl roleStep r).infoJson = some x) :
    (∃ e, (x, e) ∈ fs) ∨ r.infoJson = some x := by
  induction fs generalizing r with
  | nil => exact Or.inr h
  | cons fe fs ih =>
    simp only [List.foldl_cons] at h
    rcases ih (roleStep r fe) h with h1 | h1
    · rcases h1 with ⟨e, he⟩
      exact Or.inl ⟨e, List.mem_cons_of_mem _ he⟩
    · unfold roleStep at h1
      split_ifs at h1
      · exact Or.inr h1
      · have hv : fe.1 = x := Option.some.inj h1
        exact Or.inl ⟨fe.2, by rw [← hv]; exact List.mem_cons_self _ _⟩
      · exact Or.inr h1
      · exact Or.inr h1
      · exact Or.inr h1

/-- Helper: a description role produced by the role loop names a file of
the group (or was already set in the initial accumulator). -/
theorem roles_desc_mem (fs : List (String × String)) (r : Roles) (x : String)
    (h : (fs.foldl roleStep r).description = some x) :
    (∃ e, (x, e) ∈ fs) ∨ r.description = some x := by
  induction fs generalizing r with
  | nil => exact Or.inr h
  | cons fe fs ih =>
    simp only [List.foldl_cons] at h
    rcases ih (roleStep r fe) h with h1 | h1
    · rcases h1 with ⟨e, he⟩
      exact Or.inl ⟨e, List.mem_cons_of_mem _ he⟩
    · unfold roleStep at h1
      split_ifs at h1
      · exact Or.inr h1
      · exact Or.inr h1
      · have hv : fe.1 = x := Option.some.inj h1
        exact Or.inl ⟨fe.2, by rw [← hv]; exact List.mem_cons_self _ _⟩
      · exact Or.inr h1
      · exact Or.inr h1

/-- Helper: an unrecognized file collected by the role loop names a file
of the group (or was already in the initial accumulator). -/
theorem roles_others_mem (fs : List (String × String)) (r : Roles) (x : String)
    (h : x ∈ (fs.foldl roleStep r).others) :
    (∃ e, (x, e) ∈ fs) ∨ x ∈ r.others := by
  induction fs generalizing r with
  | nil => exact Or.inr h
  | cons fe fs ih =>
    simp only [List.foldl_cons] at h
    rcases ih (roleStep r fe) h with h1 | h1
    · rcases h1 with ⟨e, he⟩
      exact Or.inl ⟨e, List.mem_cons_of_mem _ he⟩
    · unfold roleStep at h1
      split_ifs at h1
      · exact Or.inr h1
      · exact Or.inr h1
      · exact Or.inr h1
      · exact Or.inr h1
      · simp only [List.mem_append, List.mem_singleton] at h1
        rcases h1 with h1 | h1
        · exact Or.inr h1
        · exact Or.inl ⟨fe.2, by rw [h1]; exact List.mem_cons_self _ _⟩

/-- Helper: in an association list with distinct keys, a key determines
its value. -/
theorem keyUniqueOfNodup {β : Type} (l : List (String × β))
    (hnd : (l.map Prod.fst).Nodup) (k : String) (a b : β)
    (ha : (k, a) ∈ l) (hb : (k, b) ∈ l) : a = b := by
  induction l with
  | nil => cases ha
  | cons kg rest ih =>
    obtain ⟨k0, c⟩ := kg
    simp only [List.map_cons, List.nodup_cons] at hnd
    simp only [List.mem_cons, Prod.mk.injEq] at ha hb
    rcases ha with ⟨hk1, hv1⟩ | ha
    · rcases hb with ⟨hk2, hv2⟩ | hb
      · rw [hv1, hv2]
      · exact absurd (by rw [← hk1]; exact List.mem_map_of_mem Prod.fst hb) hnd.1
    · rcases hb with ⟨hk2, hv2⟩ | hb
      · exact absurd (by rw [← hk2]; exact List.mem_map_of_mem Prod.fst ha) hnd.1
      · exact ih hnd.2 ha hb

/-- Helper: every file name that `clean_up_files` moves, deletes, or
feeds to metadata injection belongs to a group that has a video file. -/
theorem touched_has_video (files : List String) (x : String)
    (h : x ∈ (cleanUpOps files).moves.map Prod.fst ∨
         x ∈ (cleanUpOps files).deletions ∨
         x ∈ (cleanUpOps files).metadataInjected) :
    ∃ kg ∈ groupFiles files,
      (classifyRoles kg.2.files).video ≠ none ∧ ∃ e, (x, e) ∈ kg.2.files := by
  have main : ∀ kg ∈ groupFiles files,
      (x ∈ (processGroup kg.1 kg.2).moves.map Prod.fst ∨
       x ∈ (processGroup kg.1 kg.2).deletions ∨
       x ∈ (processGroup kg.1 kg.2).metadataInjected) →
      (classifyRoles kg.2.files).video ≠ none ∧ ∃ e, (x, e) ∈ kg.2.files := by
    intro kg hkg hx
    cases hv : (classifyRoles kg.2.files).video with
    | none =>
      exfalso
      simp only [processGroup, hv] at hx
      simp at hx
    | some v =>
      refine ⟨by simp [hv], ?_⟩
      simp only [processGroup, hv] at hx
      rcases hx with hx | hx | hx
      · simp only [List.map_cons] at hx
        rcases List.mem_cons.mp hx with hx | hx
        · rcases roles_video_mem kg.2.files _ v hv with hm | hm
          · rcases hm with ⟨e, he⟩
            exact ⟨e, by rw [hx]; exact he⟩
          · cases hm
        · cases ht : (classifyRoles kg.2.files).thumbnail with
          | none => simp [ht] at hx
          | some t =>
            simp only [ht, List.map_cons, List.map_nil,
              List.mem_singleton] at hx
            rcases roles_thumb_mem kg.2.files _ t ht with hm | hm
            · rcases hm with ⟨e, he⟩
              exact ⟨e, by rw [hx]; exact he⟩
            · cases hm
      · simp only [List.mem_append] at hx
        rcases hx with hx | hx
        · rcases hx with hx | hx
          · cases hi : (classifyRoles kg.2.files).infoJson with
            | none => simp [hi] at hx
            | some i =>
              simp only [hi, List.mem_singleton] at hx
              rcases roles_info_mem kg.2.files _ i hi with hm | hm
              · rcases hm with ⟨e, he⟩
                exact ⟨e, by rw [hx]; exact he⟩
              · cases hm
          · cases hd : (classifyRoles kg.2.files).description with
            | none => simp [hd] at hx
            | some d =>
              simp only [hd, List.mem_singleton] at hx
              rcases roles_desc_mem kg.2.files _ d hd with hm | hm
              · rcases hm with ⟨e, he⟩
                exact ⟨e, by rw [hx]; exact he⟩
              · cases hm
        · rcases roles_others_mem kg.2.files _ x hx with hm | hm
          · exact hm
          · cases hm
      · cases hi : (classifyRoles kg.2.files).infoJson with
        | none => simp [hi] at hx
        | some i =>
          simp only [hi, List.mem_singleton] at hx
          rcases roles_video_mem kg.2.files _ v hv with hm | hm
          · rcases hm with ⟨e, he⟩
            exact ⟨e, by rw [hx]; exact he⟩
          · cases hm
  rcases h with h | h | h
  · simp only [cleanUpOps, List.map_flatMap] at h
    rcases List.mem_flatMap.mp h with ⟨kg, hkg, hx⟩
    exact ⟨kg, hkg, main kg hkg (Or.inl (by simpa [List.map_flatMap] using hx))⟩
  · simp only [cleanUpOps] at h
    rcases List.mem_flatMap.mp h with ⟨kg, hkg, hx⟩
    exact ⟨kg, hkg, main kg hkg (Or.inr (Or.inl hx))⟩
  · simp only [cleanUpOps] at h
    rcases List.mem_flatMap.mp h with ⟨kg, hkg, hx⟩
    exact ⟨kg, hkg, main kg hkg (Or.inr (Or.inr hx))⟩

/-- Helper: the folders created by the pass are exactly one sanitized
folder per group holding a video file, in group order. -/
theorem folders_of_groups (gs : List (String × IdGroup)) :
    gs.flatMap (fun kg => (processGroup kg.1 kg.2).folders) =
      (gs.filter
        (fun kg => ((classifyRoles kg.2.files).video).isSome)).map
        (fun kg => sanitize_folder_name kg.1) := by
  induction gs with
  | nil => rfl
  | cons kg gs ih =>
    cases hv : (classifyRoles kg.2.files).video with
    | none =>
      have hhead : (processGroup kg.1 kg.2).folders = [] := by
        simp [processGroup, hv]
      simp only [List.flatMap_cons, hhead, List.nil_append, List.filter_cons,
        hv, Option.isSome_none]
      simpa using ih
    | some v =>
      have hhead : (processGroup kg.1 kg.2).folders =
          [sanitize_folder_name kg.1] := by
        simp [processGroup, hv]
      simp only [List.flatMap_cons, hhead, List.filter_cons, hv,
        Option.isSome_some]
      simpa using ih

/-- C9: a group discovered by the pipeline with no media file is left
completely untouched — none of its files is ever moved, deleted, or fed
to metadata injection — while the groups holding a media file each
produce exactly one per-item directory (one sanitized folder per such
group, in order). -/
theorem C9_groups_frame (files : List String) :
    (∀ k g, (k, g) ∈ groupFiles files →
      (classifyRoles g.files).video = none →
      ∀ pe ∈ g.files,
        pe.1 ∉ (cleanUpOps files).moves.map Prod.fst ∧
        pe.1 ∉ (cleanUpOps files).deletions ∧
        pe.1 ∉ (cleanUpOps files).metadataInjected) ∧
    (cleanUpOps files).folders =
      ((groupFiles files).filter
        (fun kg => ((classifyRoles kg.2.files).video).isSome)).map
        (fun kg => sanitize_folder_name kg.1) := by
  constructor
  · intro k g hg hnone pe hpe
    have untouched : ∀ hx : pe.1 ∈ (cleanUpOps files).moves.map Prod.fst ∨
        pe.1 ∈ (cleanUpOps files).deletions ∨
        pe.1 ∈ (cleanUpOps files).metadataInjected, False := by
      intro hx
      obtain ⟨kg, hkg, hv, e, he⟩ := touched_has_video files pe.1 hx
      obtain ⟨hnd, hmem⟩ := groupFiles_good files
      obtain ⟨idp1, h1⟩ := hmem (k, g) hg pe hpe
      obtain ⟨idp2, h2⟩ := hmem kg hkg (pe.1, e) he
      have hkeq : kg.1 = k := by
        rw [h1] at h2
        exact (Prod.mk.injEq _ _ _ _ ▸ Option.some.inj h2).1.symm
      have hgeq : kg.2 = g := by
        apply keyUniqueOfNodup (groupFiles files) hnd k kg.2 g
        · rw [← hkeq]; exact hkg
        · exact hg
      rw [hgeq] at hv
      exact hv hnone
    exact ⟨fun hx => untouched (Or.inl hx),
           fun hx => untouched (Or.inr (Or.inl hx)),
           fun hx => untouched (Or.inr (Or.inr hx))⟩
  · simpa [cleanUpOps] using folders_of_groups (groupFiles files)

/-- Witness for C9: with a description-only group "a" and a video group
"b", the description file is untouched and exactly the folder "B" is
created. -/
theorem C9_groups_frame_witness :
    ("a [i1].description" ∉
        (cleanUpOps
          ["a [i1].description", "b [i2].mp4"]).moves.map Prod.fst ∧
     "a [i1].description" ∉
        (cleanUpOps ["a [i1].description", "b [i2].mp4"]).deletions ∧
     "a [i1].description" ∉
        (cleanUpOps ["a [i1].description", "b [i2].mp4"]).metadataInjected) ∧
    (cleanUpOps ["a [i1].description", "b [i2].mp4"]).folders = ["B"] := by
  constructor
  · exact (C9_groups_frame ["a [i1].description", "b [i2].mp4"]).1
      "a" { id := " [i1]", files := [("a [i1].description", ".description")] }
      (by decide) (by decide)
      ("a [i1].description", ".description") (by decide)
  · decide

/-- Splits a character list on newline characters, keeping empty pieces,
as Python str.split applied with a newline separator (process_creators.py
line 397). -/
def splitNl : List Char → List (List Char)
  | [] => [[]]
  | c :: cs =>
    if c = '\n' then [] :: splitNl cs
    else
      match splitNl cs with
      | [] => [[c]]
      | l :: ls => (c :: l) :: ls

/-- Python str.splitlines restricted to newline-terminated text: split on
newlines and drop the trailing empty piece (process_creators.py line
448; the script's lines never use the other Unicode line boundaries). -/
def pySplitlines (s : List Char) : List (List Char) :=
  let parts := splitNl s
  if parts.getLastD [' '] = [] then parts.dropLast else parts

/-- Embeds the per-line error capture shared by the polling loop (lines
400-410) and the final drain (lines 448-458): strip the line, skip it if
empty, and append it to the captured error lines when it matches the
error test (other lines only go to the logger). -/
def classifyAppend (es : List String) (l : List Char) : List String :=
  let l2 := pyStrip l
  if l2 = [] then es
  else if isErrorLine (String.mk l2) then es ++ [String.mk l2]
  else es

/-- Embeds one successful chunk read of the polling loop (lines 394-410):
append the chunk to the buffer, split on newlines, keep the last
(incomplete) piece as the new buffer, and run the error capture over the
complete lines. -/
def streamStep (st : List Char × List String) (chunk : String) :
    List Char × List String :=
  let buffer := st.1 ++ chunk.data
  let parts := splitNl buffer
  (parts.getLastD [], (parts.dropLast).foldl classifyAppend st.2)

/-- The polling loop of `download_creator` over the sequence of chunk
reads observed while the process runs, starting from an empty buffer and
no captured error lines. -/
def runLoop (chunks : List String) : List Char × List String :=
  chunks.foldl streamStep ([], [])

/-- Embeds the final drain (lines 444-460): the text returned by the
last read is split into lines and fed through the same error capture.
The loop's leftover buffer is not consulted here, exactly as in the
source. -/
def drainErrors (remaining : String) (es : List String) : List String :=
  (pySplitlines remaining.data).foldl classifyAppend es

/-- All error lines captured for a job: those collected by the polling
loop followed by those collected by the final drain. -/
def capturedErrors (chunks : List String) (finalRead : String) : List String :=
  drainErrors finalRead (runLoop chunks).2

/-- Child processes `download_creator` can spawn: the yt-dlp --version
probe of `get_ytdlp_version` (line 284), the main fetch invocation (line
372), and the diagnostic probe of `attempt_alternative_download` (line
251). -/
inductive Proc where
  | versionProbe
  | fetch
  | diagnostic
  deriving DecidableEq, Repr

/-- Environment of one `download_creator` call: the observable state of
the cookies file, whether the archive ledger accepts appends, the chunk
reads the polling loop sees, the text left for the final drain, and the
fetch process exit code. -/
structure SupervisorEnv where
  cookiesPresent : Bool
  cookiesSize : Nat
  archiveWritable : Bool
  chunks : List String
  finalRead : String
  returnCode : Int
  deriving DecidableEq, Repr

/-- Observable outcome of one `download_creator` call: the returned Bool,
the child processes spawned in order, the lines appended to the
per-creator error log (timestamps and the final summary block elided),
the accumulated error_lines, and the leftover line buffer at exit. -/
structure SupRun where
  result : Bool
  spawned : List Proc
  errorLog : List String
  errorLines : List String
  buffer : String
  deriving DecidableEq, Repr

/-- Embeds the control flow of `download_creator` (process_creators.py
lines 292-510): `get_ytdlp_version` spawns the version probe first (line
304), then the cookies check (line 355) and the archive append check
(line 362) each return False without launching the fetch; otherwise the
fetch is spawned, the polling loop and final drain capture error lines,
and the end-of-job decision maps Failed to False (spawning the
diagnostic probe first, line 500) and everything else to True. -/
def download_creator (env : SupervisorEnv) : SupRun :=
  if env.cookiesPresent = false ∨ env.cookiesSize = 0 then
    { result := false, spawned := [Proc.versionProbe],
      errorLog := ["ERROR: Cookies file is missing or empty"],
      errorLines := [], buffer := "" }
  else if env.archiveWritable = false then
    { result := false, spawned := [Proc.versionProbe],
      errorLog := ["ERROR: Cannot write to archive file"],
      errorLines := [], buffer := "" }
  else
    let st := runLoop env.chunks
    let errs := drainErrors env.finalRead st.2
    match classify env.returnCode errs with
    | Outcome.Failed =>
      { result := false,
        spawned := [Proc.versionProbe, Proc.fetch, Proc.diagnostic],
        errorLog := errs, errorLines := errs, buffer := String.mk st.1 }
    | _ =>
      { result := true, spawned := [Proc.versionProbe, Proc.fetch],
        errorLog := errs, errorLines := errs, buffer := String.mk st.1 }

/-- Embeds the orchestrator's gating of the pipeline (main, lines
536-549): `clean_up_files` runs exactly when `download_creator` returned
True and video files were found in the creator directory. -/
def runsPipeline (downloadSuccess mediaFound : Bool) : Bool :=
  downloadSuccess && mediaFound

/-- C3 (counterexample to the claim as stated): with an empty cookies
file the supervisor does return False, but the child-process invocation
count before returning is not zero — the yt-dlp version probe is spawned
before the precondition checks. -/
theorem C3_counterexample :
    (download_creator ⟨true, 0, true, [], "", 0⟩).result = false ∧
    (download_creator ⟨true, 0, true, [], "", 0⟩).spawned ≠ [] := by
  decide

/-- C3 (amended): for every job whose cookies file is missing or empty or
whose archive ledger is not appendable, the supervisor returns False with
the specific reason written to the per-creator error log, and neither the
fetch invocation nor the diagnostic probe is ever launched — the only
child process spawned is the version probe that precedes the checks. -/
theorem C3_preconditions (env : SupervisorEnv)
    (h : env.cookiesPresent = false ∨ env.cookiesSize = 0 ∨
         env.archiveWritable = false) :
    (download_creator env).result = false ∧
    (download_creator env).spawned = [Proc.versionProbe] ∧
    Proc.fetch ∉ (download_creator env).spawned ∧
    Proc.diagnostic ∉ (download_creator env).spawned ∧
    ((download_creator env).errorLog =
        ["ERROR: Cookies file is missing or empty"] ∨
     (download_creator env).errorLog =
        ["ERROR: Cannot write to archive file"]) := by
  by_cases hc : env.cookiesPresent = false ∨ env.cookiesSize = 0
  · rw [download_creator, if_pos hc]
    refine ⟨rfl, rfl, by decide, by decide, Or.inl rfl⟩
  · have ha : env.archiveWritable = false := by tauto
    rw [download_creator, if_neg hc, if_pos ha]
    refine ⟨rfl, rfl, by decide, by decide, Or.inr rfl⟩

/-- Witness for C3 (amended) at a concrete environment with a zero-size
cookies file. -/
theorem C3_preconditions_witness :
    (download_creator ⟨true, 0, true, [], "", 0⟩).spawned =
        [Proc.versionProbe] ∧
    Proc.fetch ∉ (download_creator ⟨true, 0, true, [], "", 0⟩).spawned :=
  ⟨(C3_preconditions ⟨true, 0, true, [], "", 0⟩ (Or.inr (Or.inl rfl))).2.1,
   (C3_preconditions ⟨true, 0, true, [], "", 0⟩ (Or.inr (Or.inl rfl))).2.2.1⟩

/-- C5 (code behavior at the failing input): when the fetch process
writes an unterminated error line that the polling loop reads before
exit and the stream then ends, the line stays in the leftover buffer, is
never classified, the captured error lines stay empty, and the job with
exit code 1 is reported successful. -/
theorem C5_code_behavior :
    (download_creator
        ⟨true, 1, true, ["ERROR: network down"], "", 1⟩).buffer =
      "ERROR: network down" ∧
    (download_creator
        ⟨true, 1, true, ["ERROR: network down"], "", 1⟩).errorLines = [] ∧
    (download_creator
        ⟨true, 1, true, ["ERROR: network down"], "", 1⟩).result = true := by
  decide

/-- C10: when the preconditions hold, the fetch process exits with a
nonzero code, and no error-or-warning line at all was captured, the
end-of-job decision lands in the success branch, the supervisor returns
True, and the orchestrator's pipeline gating then depends only on media
presence. -/
theorem C10_empty_errors_success (env : SupervisorEnv)
    (h1 : env.cookiesPresent = true) (h2 : env.cookiesSize ≠ 0)
    (h3 : env.archiveWritable = true)
    (h4 : capturedErrors env.chunks env.finalRead = [])
    (h5 : env.returnCode ≠ 0) :
    classify env.returnCode [] = Outcome.Success ∧
    (download_creator env).result = true ∧
    ∀ mediaFound : Bool,
      runsPipeline (download_creator env).result mediaFound = mediaFound := by
  have hclass : classify env.returnCode [] = Outcome.Success := by
    simp [classify]
  have hres : (download_creator env).result = true := by
    rw [download_creator, if_neg (by simp [h1, h2]), if_neg (by simp [h3])]
    simp only [capturedErrors] at h4
    simp only [h4, hclass]
  exact ⟨hclass, hres, fun m => by simp [runsPipeline, hres]⟩

/-- Witness for C10 at a concrete environment: no output at all, exit
code 1. -/
theorem C10_empty_errors_success_witness :
    classify 1 [] = Outcome.Success ∧
    (download_creator ⟨true, 1, true, [], "", 1⟩).result = true ∧
    ∀ mediaFound : Bool,
      runsPipeline (download_creator ⟨true, 1, true, [], "", 1⟩).result
        mediaFound = mediaFound :=
  C10_empty_errors_success ⟨true, 1, true, [], "", 1⟩ rfl (by decide) rfl
    (by decide) (by decide)

/-- The important download messages that bypass the throttle
(process_creators.py line 416). -/
def isImportantDl (l : String) : Bool :=
  hasSub "Destination:" l || hasSub "has already been downloaded" l ||
    hasSub "Resuming download" l

/-- One position of the progress percentage pattern: one or more digits,
a dot, one digit, then a percent sign, as the group (\d+\.\d)% of the
progress regex at line 385 (the greedy digit runs are forced by the
following literal characters). -/
def pctAt (cs : List Char) : Bool :=
  let ds := cs.takeWhile Char.isDigit
  let rest := cs.drop ds.length
  !ds.isEmpty &&
    match rest with
    | '.' :: d :: '%' :: _ => d.isDigit
    | _ => false

/-- Scans every position for the percentage pattern, as the lazy .*? of
the progress regex. -/
def pctSearch : List Char → Bool
  | [] => false
  | c :: cs => pctAt (c :: cs) || pctSearch cs

/-- Embeds progress_pattern.match of line 420: the line starts with the
[download] marker and carries a decimal percentage somewhere after it. -/
def progressPctMatch (l : String) : Bool :=
  startsWithC "[download]".data l.data && pctSearch (l.data.drop 10)

/-- Embeds the [download] branch of the polling loop (lines 413-425)
restricted to its effect on the throttled progress log: important
messages bypass the throttle (they are logged as info, not counted
here); a line containing a percent sign is logged and resets the
throttle clock only when at least one second has elapsed since the last
logged update and the progress regex matches. Returns the timestamps of
the logged percentage updates; the initial clock is the loop start time
(line 386). -/
def throttledPctLog (last : ℚ) : List (ℚ × String) → List ℚ
  | [] => []
  | (t, l) :: es =>
    if isImportantDl l = true then throttledPctLog last es
    else if hasSub "%" l = true ∧ 1 ≤ t - last then
      if progressPctMatch l = true then t :: throttledPctLog t es
      else throttledPctLog last es
    else throttledPctLog last es

/-- Helper: every logged progress timestamp is at least one second after
the throttle clock it started from. -/
theorem throttledPctLog_lower (es : List (ℚ × String)) (last : ℚ) :
    ∀ x ∈ throttledPctLog last es, last + 1 ≤ x := by
  induction es generalizing last with
  | nil => intro x hx; cases hx
  | cons e es ih =>
    obtain ⟨t, l⟩ := e
    intro x hx
    simp only [throttledPctLog] at hx
    split_ifs at hx with h1 h2 h3
    · exact ih last x hx
    · rcases List.mem_cons.mp hx with rfl | hx
      · linarith [h2.2]
      · have := ih t x hx
        linarith [h2.2]
    · exact ih last x hx
    · exact ih last x hx

/-- Helper: consecutive logged progress timestamps are at least one
second apart. -/
theorem throttledPctLog_chain (es : List (ℚ × String)) (last : ℚ) :
    List.Chain' (fun a b : ℚ => a + 1 ≤ b) (throttledPctLog last es) := by
  induction es generalizing last with
  | nil => exact List.chain'_nil
  | cons e es ih =>
    obtain ⟨t, l⟩ := e
    simp only [throttledPctLog]
    split_ifs with h1 h2 h3
    · exact ih last
    · rw [List.chain'_cons']
      refine ⟨?_, ih t⟩
      intro y hy
      have hmem : y ∈ throttledPctLog t es := List.mem_of_mem_head? hy
      have := throttledPctLog_lower es t y hmem
      linarith
    · exact ih last
    · exact ih last

/-- Helper: within a window of n seconds after the throttle clock, at
most n progress updates are logged, whatever the number of events. -/
theorem throttledPctLog_count (es : List (ℚ × String)) (last : ℚ) (n : ℕ)
    (hb : ∀ e ∈ es, e.1 ≤ last + n) :
    (throttledPctLog last es).length ≤ n := by
  induction es generalizing last n with
  | nil => simp [throttledPctLog]
  | cons e es ih =>
    obtain ⟨t, l⟩ := e
    simp only [throttledPctLog]
    split_ifs with h1 h2 h3
    · exact ih last n (fun e he => hb e (List.mem_cons_of_mem _ he))
    · have ht_le : t ≤ last + n := hb (t, l) (List.mem_cons_self _ _)
      have ht_ge : last + 1 ≤ t := by linarith [h2.2]
      have hn : 1 ≤ (n : ℚ) := by linarith
      have hn2 : 1 ≤ n := by exact_mod_cast hn
      obtain ⟨m, rfl⟩ : ∃ m, n = m + 1 := ⟨n - 1, by omega⟩
      simp only [List.length_cons]
      have hrec : (throttledPctLog t es).length ≤ m := by
        apply ih t m
        intro e he
        have hbe := hb e (List.mem_cons_of_mem _ he)
        push_cast at hbe ⊢
        linarith
      omega
    · exact ih last n (fun e he => hb e (List.mem_cons_of_mem _ he))
    · exact ih last n (fun e he => hb e (List.mem_cons_of_mem _ he))

/-- C7: for every sequence of timestamped lines reaching the [download]
branch, the percentage updates written to the log sink are at least one
second apart, and within any n-second window starting at the loop start
at most n of them are written — bounded by elapsed wall time, not by the
number or granularity of the incoming progress events. -/
theorem C7_progress_throttle (t0 : ℚ) (es : List (ℚ × String)) (n : ℕ)
    (hb : ∀ e ∈ es, e.1 ≤ t0 + n) :
    List.Chain' (fun a b : ℚ => a + 1 ≤ b) (throttledPctLog t0 es) ∧
    (throttledPctLog t0 es).length ≤ n :=
  ⟨throttledPctLog_chain es t0, throttledPctLog_count es t0 n hb⟩

/-- Witness for C7: five progress events in two seconds produce at most
two logged updates, one second apart. -/
theorem C7_progress_throttle_witness :
    List.Chain' (fun a b : ℚ => a + 1 ≤ b)
      (throttledPctLog 0
        [((1 : ℚ) / 2, "[download]  10.0% of 1MiB"),
         (1, "[download]  20.0% of 1MiB"),
         ((3 : ℚ) / 2, "[download]  30.0% of 1MiB"),
         ((7 : ℚ) / 4, "[download]  40.0% of 1MiB"),
         (2, "[download]  50.0% of 1MiB")]) ∧
    (throttledPctLog 0
        [((1 : ℚ) / 2, "[download]  10.0% of 1MiB"),
         (1, "[download]  20.0% of 1MiB"),
         ((3 : ℚ) / 2, "[download]  30.0% of 1MiB"),
         ((7 : ℚ) / 4, "[download]  40.0% of 1MiB"),
         (2, "[download]  50.0% of 1MiB")]).length ≤ 2 :=
  C7_progress_throttle 0
    [((1 : ℚ) / 2, "[download]  10.0% of 1MiB"),
     (1, "[download]  20.0% of 1MiB"),
     ((3 : ℚ) / 2, "[download]  30.0% of 1MiB"),
     ((7 : ℚ) / 4, "[download]  40.0% of 1MiB"),
     (2, "[download]  50.0% of 1MiB")] 2
    (by intro e he; fin_cases he <;> norm_num)

/-- Environment of one `add_metadata_to_video` call: which of its
fallible steps succeed. The fields follow the source order: the
existence checks of line 54, the json.load of line 61 (raises on parse
failure), the description read of lines 70-72 (attempted only when the
file exists, raises on failure), the ffmpeg run of line 88 (check=True
raises on a nonzero exit), and whether a failed ffmpeg run left a
partial temporary file behind for the handler to remove. -/
structure MetaEnv where
  videoExists : Bool
  infoJsonExists : Bool
  infoJsonParses : Bool
  descriptionExists : Bool
  descriptionReadOk : Bool
  ffmpegSucceeds : Bool
  ffmpegLeavesTemp : Bool
  deriving DecidableEq, Repr

/-- Observable outcome of one `add_metadata_to_video` call: the returned
Bool (the except handler at line 96 catches every exception, so the call
always returns), whether a file is present at the original media path
afterwards, whether os.remove ran on the original (line 91), whether the
file at the media path now carries the injected metadata, and whether
the temporary sibling file is still present. -/
structure MetaOutcome where
  returned : Bool
  originalPresent : Bool
  originalRemoved : Bool
  metadataWritten : Bool
  tempPresent : Bool
  deriving DecidableEq, Repr

/-- Embeds `add_metadata_to_video` (process_creators.py lines 52-101):
missing video or info JSON returns False immediately; a JSON parse
failure or a description read failure raises into the handler before
ffmpeg runs (no temporary file exists yet); an ffmpeg failure raises
into the handler, which removes the temporary file if one was left
(lines 99-100) and returns False with the original untouched; on ffmpeg
success the original is removed and the temporary file is renamed onto
the original path (lines 91-92), so the media path then holds the
injected copy. -/
def add_metadata_to_video (env : MetaEnv) : MetaOutcome :=
  if ¬(env.videoExists = true ∧ env.infoJsonExists = true) then
    { returned := false, originalPresent := env.videoExists,
      originalRemoved := false, metadataWritten := false,
      tempPresent := false }
  else if env.infoJsonParses = false then
    { returned := false, originalPresent := true, originalRemoved := false,
      metadataWritten := false, tempPresent := false }
  else if env.descriptionExists = true ∧ env.descriptionReadOk = false then
    { returned := false, originalPresent := true, originalRemoved := false,
      metadataWritten := false, tempPresent := false }
  else if env.ffmpegSucceeds = true then
    { returned := true, originalPresent := true, originalRemoved := true,
      metadataWritten := true, tempPresent := false }
  else
    { returned := false, originalPresent := true, originalRemoved := false,
      metadataWritten := false, tempPresent := false }

/-- C4: when the media file exists at call time, metadata injection
never leaves zero on-disk copies (a file is always present at the media
path afterwards); the original is removed only on the path where the
transcode tool reported success; and every failure returns False (never
raises, by the catch-all handler) with the original untouched and the
temporary file removed. -/
theorem C4_metadata_atomic (env : MetaEnv) (h : env.videoExists = true) :
    (add_metadata_to_video env).originalPresent = true ∧
    ((add_metadata_to_video env).originalRemoved = true →
      env.ffmpegSucceeds = true ∧
        (add_metadata_to_video env).returned = true) ∧
    ((add_metadata_to_video env).returned = false →
      (add_metadata_to_video env).originalRemoved = false ∧
      (add_metadata_to_video env).metadataWritten = false ∧
      (add_metadata_to_video env).tempPresent = false) ∧
    (env.ffmpegSucceeds = false →
      (add_metadata_to_video env).returned = false ∧
      (add_metadata_to_video env).tempPresent = false) := by
  obtain ⟨v, i, p, d, r, f, t⟩ := env
  cases v
  · exact Bool.noConfusion h
  · cases i <;> cases p <;> cases d <;> cases r <;> cases f <;> cases t <;>
      decide

/-- Witness for C4 at a concrete environment where ffmpeg fails leaving
a partial temporary file. -/
theorem C4_metadata_atomic_witness :
    (add_metadata_to_video
        ⟨true, true, true, false, true, false, true⟩).originalPresent =
      true ∧
    ((add_metadata_to_video
        ⟨true, true, true, false, true, false, true⟩).originalRemoved =
          true →
      (⟨true, true, true, false, true, false, true⟩ :
          MetaEnv).ffmpegSucceeds = true ∧
        (add_metadata_to_video
          ⟨true, true, true, false, true, false, true⟩).returned = true) ∧
    ((add_metadata_to_video
        ⟨true, true, true, false, true, false, true⟩).returned = false →
      (add_metadata_to_video
          ⟨true, true, true, false, true, false, true⟩).originalRemoved =
        false ∧
      (add_metadata_to_video
          ⟨true, true, true, false, true, false, true⟩).metadataWritten =
        false ∧
      (add_metadata_to_video
          ⟨true, true, true, false, true, false, true⟩).tempPresent =
        false) ∧
    ((⟨true, true, true, false, true, false, true⟩ :
          MetaEnv).ffmpegSucceeds = false →
      (add_metadata_to_video
          ⟨true, true, true, false, true, false, true⟩).returned = false ∧
      (add_metadata_to_video
          ⟨true, true, true, false, true, false, true⟩).tempPresent =
        false) :=
  C4_metadata_atomic ⟨true, true, true, false, true, false, true⟩ rfl
